import Mathlib

/-!
Verification development for the financial-app-backend repository.

The pure computational core of the backend (spending classification and
analysis, portfolio summarization, wallet-asset compilation, news-source
credibility) is embedded shallowly: Python dicts of heterogeneous values
become association lists over a `Value` type, well-formed transaction /
holding / event records become Lean structures, monetary decimals become
rationals, and Python's `round(x, n)` is modelled by `round` on ℚ scaled
by `10^n` (none of the results proven below depends on the tie-breaking
mode of rounding).  Python code that can raise (division by zero, wrongly
typed fields) is modelled with `Option`.
-/

unseal Rat.mul Rat.inv Rat.add Rat.sub Rat.ofScientific

/-- Characters-list prefix test; `charsPrefix n h` is true when `n` is a
prefix of `h`.  Used to model Python's substring operator. -/
def charsPrefix : List Char → List Char → Bool
  | [], _ => true
  | _ :: _, [] => false
  | a :: as, b :: bs => a == b && charsPrefix as bs

/-- Contiguous-sublist test on character lists. -/
def charsSub (needle : List Char) : List Char → Bool
  | [] => needle.isEmpty
  | c :: rest => charsPrefix needle (c :: rest) || charsSub needle rest

/-- Models Python's `needle in hay` on strings (contiguous substring). -/
def strContains (hay needle : String) : Bool :=
  charsSub needle.data hay.data

/-- Models Python's `str.lower()` (ASCII case folding, as used by the
repository's keyword lists, which are all ASCII). -/
def lowerStr (s : String) : String :=
  ⟨s.data.map Char.toLower⟩

/-- Models Python's `str.startswith(p)`. -/
def strStarts (s p : String) : Bool :=
  charsPrefix p.data s.data

/-- The `ESSENTIAL_CATEGORIES` keyword list from src/routes/banking.py. -/
def ESSENTIAL_CATEGORIES : List String :=
  ["groceries", "supermarket", "grocery",
   "rent", "mortgage", "housing",
   "utilities", "electric", "gas", "water", "internet",
   "insurance", "health insurance", "car insurance",
   "healthcare", "medical", "pharmacy", "doctor",
   "transportation", "fuel", "gas station", "public transit",
   "childcare", "education"]

/-- The `NON_ESSENTIAL_CATEGORIES` keyword list from src/routes/banking.py (defined at module
level in the source; not consulted by `categorize_transaction`). -/
def NON_ESSENTIAL_CATEGORIES : List String :=
  ["dining", "restaurant", "fast food", "coffee",
   "entertainment", "movies", "streaming", "gaming",
   "shopping", "clothing", "electronics", "amazon",
   "subscriptions", "netflix", "spotify",
   "travel", "vacation", "hotel", "airline",
   "personal care", "salon", "spa"]

/-- The essential-keyword scan of `categorize_transaction`
(src/routes/banking.py lines 44-52): lowercase both fields, then look for
any essential keyword occurring in either, first match short-circuiting. -/
def isEssentialTx (name category : String) : Bool :=
  let n := lowerStr name
  let c := lowerStr category
  ESSENTIAL_CATEGORIES.any fun keyword => strContains n keyword || strContains c keyword

/-- A Python dict value as stored in a transaction record: string, numeric
(modelled as ℚ) or boolean. -/
inductive Value where
  | s (v : String)
  | n (v : ℚ)
  | b (v : Bool)
deriving DecidableEq

/-- A Python dict (transaction record): an association list from keys to
values, in insertion order, first binding authoritative. -/
abbrev TxRecord := List (String × Value)

/-- Dict lookup: first binding of the key, if any. -/
def txLookup (t : TxRecord) (k : String) : Option Value :=
  match t with
  | [] => none
  | p :: rest => if p.1 == k then some p.2 else txLookup rest k

/-- Dict update `{**t, k: v}` for a single key: replace the existing binding
in place, else append a new binding at the end (Python insertion order). -/
def setKey : TxRecord → String → Value → TxRecord
  | [], k, v => [(k, v)]
  | p :: rest, k, v => if p.1 == k then (k, v) :: rest else p :: setKey rest k v

/-- Models `transaction.get(k, '')` followed by use as a string
(`.lower()`): a missing key yields `""`, a string value yields itself, and
a non-string value is a type error in Python (modelled as `none`). -/
def getStr (t : TxRecord) (k : String) : Option String :=
  match txLookup t k with
  | none => some ""
  | some (.s v) => some v
  | some _ => none

/-- Function `categorize_transaction` from src/routes/banking.py lines 34-61 on the
dict model: reads `name` and `category` (defaulting to `""`), computes
`is_essential` by the keyword scan, derives `category_type` from it, and
returns the input dict with those two keys attached/overwritten. -/
def categorize_transaction (transaction : TxRecord) : Option TxRecord :=
  match getStr transaction "name", getStr transaction "category" with
  | some nm, some cat =>
    let is_essential := isEssentialTx nm cat
    let category_type : Value := .s (if is_essential then "essential" else "non-essential")
    some (setKey (setKey transaction "is_essential" (.b is_essential)) "category_type" category_type)
  | _, _ => none

/-- A well-formed transaction record in the shape of the spec's data model
(§3): `name`, `category`, signed `amount`, plus the classifier-attached
`is_essential` flag (false models the analyzer's `.get('is_essential',
False)` default for unclassified records). -/
structure STx where
  name : String
  category : String
  amount : ℚ
  is_essential : Bool
deriving DecidableEq

/-- Classification restricted to well-formed records: attaches
`is_essential` computed by the keyword scan. -/
def categorize_stx (name category : String) (amount : ℚ) : STx :=
  { name := name, category := category, amount := amount
    is_essential := isEssentialTx name category }

/-- Models Python `round(x, 2)`. -/
def round2 (x : ℚ) : ℚ := (round (x * 100) : ℤ) / 100

/-- Models Python `round(x, 1)`. -/
def round1 (x : ℚ) : ℚ := (round (x * 10) : ℤ) / 10

/-- One dict-accumulation step `m[k] = m.get(k, 0) + a` preserving
insertion order: add into the first binding of `k`, else append `(k, a)`.
Used both by `analyze_spending`'s category breakdown and by
`get_portfolio`'s allocation grouping. -/
def accumBy : List (String × ℚ) → String → ℚ → List (String × ℚ)
  | [], k, a => [(k, a)]
  | p :: rest, k, a => if p.1 == k then (p.1, p.2 + a) :: rest else p :: accumBy rest k a

/-- The loop state of `analyze_spending` (src/routes/banking.py lines
71-89): running totals and the category-breakdown dict. -/
structure SpendAcc where
  total_spent : ℚ
  essential_spent : ℚ
  non_essential_spent : ℚ
  category_breakdown : List (String × ℚ)
deriving DecidableEq

/-- One iteration of the `analyze_spending` loop over a transaction. -/
def stepTx (acc : SpendAcc) (tx : STx) : SpendAcc :=
  let amount := |tx.amount|
  { total_spent := acc.total_spent + amount
    essential_spent :=
      if tx.is_essential then acc.essential_spent + amount else acc.essential_spent
    non_essential_spent :=
      if tx.is_essential then acc.non_essential_spent else acc.non_essential_spent + amount
    category_breakdown := accumBy acc.category_breakdown tx.category amount }

/-- The full accumulation loop of `analyze_spending`. -/
def spendFold (transactions : List STx) : SpendAcc :=
  transactions.foldl stepTx ⟨0, 0, 0, []⟩

/-- The result shape of `analyze_spending`. -/
structure SpendingAnalysis where
  total_spent : ℚ
  essential_spent : ℚ
  non_essential_spent : ℚ
  essential_percent : ℚ
  non_essential_percent : ℚ
  category_breakdown : List (String × ℚ)
deriving DecidableEq

/-- Function `analyze_spending` from src/routes/banking.py lines 64-98: accumulate,
then round at the boundary; percentages guard `total_spent > 0`; the
category breakdown is sorted descending by summed value (stable sort, as
Python's `sorted`) and its values rounded to 2 decimals. -/
def analyze_spending (transactions : List STx) : SpendingAnalysis :=
  let acc := spendFold transactions
  { total_spent := round2 acc.total_spent
    essential_spent := round2 acc.essential_spent
    non_essential_spent := round2 acc.non_essential_spent
    essential_percent :=
      round1 (if 0 < acc.total_spent then acc.essential_spent / acc.total_spent * 100 else 0)
    non_essential_percent :=
      round1 (if 0 < acc.total_spent then acc.non_essential_spent / acc.total_spent * 100 else 0)
    category_breakdown :=
      (acc.category_breakdown.mergeSort (fun x y => decide (y.2 ≤ x.2))).map
        (fun p => (p.1, round2 p.2)) }

/-- First-occurrence order of the distinct category strings of a
transaction sequence (the insertion order of the breakdown dict).  This is
a specification-side definition used to state claim C3. -/
def firstKeys (cats : List String) : List String :=
  cats.foldl (fun ks c => if c ∈ ks then ks else ks ++ [c]) []

/-- Specification-side category sums: each distinct raw category, in
encounter order, paired with the sum of absolute amounts of its
transactions.  Used to state claim C3. -/
def specCatSums (transactions : List STx) : List (String × ℚ) :=
  (firstKeys (transactions.map STx.category)).map fun c =>
    (c, ((transactions.filter fun t => t.category == c).map fun t => |t.amount|).sum)

/-- A brokerage holding as consumed by the portfolio summarization in
`get_portfolio` (src/trading.py): the summary reads `market_value`,
`quantity`, `avg_cost` and `type`; the remaining per-holding fields do not
enter the computation. -/
structure Holding where
  symbol : String
  name : String
  quantity : ℚ
  avg_cost : ℚ
  current_price : ℚ
  market_value : ℚ
  type : String
deriving DecidableEq

/-- Sum of `market_value` over the holdings (src/trading.py line 123). -/
def total_value (holdings : List Holding) : ℚ :=
  (holdings.map fun h => h.market_value).sum

/-- Sum of `quantity * avg_cost` over the holdings (src/trading.py line 124). -/
def total_cost (holdings : List Holding) : ℚ :=
  (holdings.map fun h => h.quantity * h.avg_cost).sum

/-- The allocation dict of `get_portfolio` (src/trading.py lines 128-133):
market value summed per holding type, in first-encounter order. -/
def allocationSums (holdings : List Holding) : List (String × ℚ) :=
  holdings.foldl (fun allocation h => accumBy allocation h.type h.market_value) []

/-- The `portfolio` object assembled by `get_portfolio`
(src/trading.py lines 142-154), together with the allocation mapping. -/
structure PortfolioSummary where
  total_value : ℚ
  total_cost : ℚ
  total_gain_loss : ℚ
  total_gain_loss_percent : ℚ
  allocation : List (String × ℚ)
deriving DecidableEq

/-- The portfolio summarization of `get_portfolio` (src/trading.py lines
122-155), generalized over the holdings list.  Python raises an unhandled
`ZeroDivisionError` at line 136 (`v / total_value`) when `total_value = 0`
and the allocation dict is non-empty, and at line 148
(`total_gain / total_cost`) when `total_cost = 0`; both are modelled as
`none`. -/
def get_portfolio (holdings : List Holding) : Option PortfolioSummary :=
  let tv := total_value holdings
  let tc := total_cost holdings
  let total_gain := tv - tc
  let allocation := allocationSums holdings
  if tv = 0 ∧ allocation ≠ [] then none
  else if tc = 0 then none
  else some
    { total_value := round2 tv
      total_cost := round2 tc
      total_gain_loss := round2 total_gain
      total_gain_loss_percent := round2 (total_gain / tc * 100)
      allocation := allocation.map fun p => (p.1, round1 (p.2 / tv * 100)) }

/-- A native-chain balance record as produced by `get_eth_balance` /
`get_polygon_balance` (src/routes/blockchain.py). -/
structure NativeBalance where
  chain : String
  symbol : String
  balance : ℚ
  balance_raw : ℤ
deriving DecidableEq

/-- A raw ERC-20 transfer event as consumed by `get_eth_tokens`
(src/routes/blockchain.py lines 87-96), with the fields the compiler
reads. -/
structure TransferEvent where
  tokenSymbol : String
  tokenName : String
  contractAddress : String
  tokenDecimal : ℤ
deriving DecidableEq

/-- A compiled token entry (src/routes/blockchain.py lines 91-96). -/
structure Token where
  symbol : String
  name : String
  contract : String
  decimals : ℤ
deriving DecidableEq

/-- The token entry built from one transfer event. -/
def mkToken (tx : TransferEvent) : Token :=
  { symbol := tx.tokenSymbol, name := tx.tokenName
    contract := tx.contractAddress, decimals := tx.tokenDecimal }

/-- One iteration of the `get_eth_tokens` loop: insert the event's token
keyed by symbol unless the symbol is already present. -/
def tokStep (tokens : List Token) (tx : TransferEvent) : List Token :=
  if tokens.any (fun t => t.symbol == tx.tokenSymbol) then tokens
  else tokens ++ [mkToken tx]

/-- The token compilation of `get_eth_tokens` (src/routes/blockchain.py
lines 85-97) over the raw transfer-event history (newest first): scan
`result[:50]`, deduplicate by symbol with first occurrence winning, and
return the dict's values in insertion order. -/
def get_eth_tokens (events : List TransferEvent) : List Token :=
  (events.take 50).foldl tokStep []

/-- An opaque DeFi position record (src/routes/blockchain.py lines
103-123; the stub always returns an empty list). -/
structure DefiPosition where
  protocol : String
  type : String
  asset : String
  balance : ℚ
deriving DecidableEq

/-- The outcome of the `/wallet/<address>` route `get_wallet_assets`
(src/routes/blockchain.py lines 126-170): either the 400 `InvalidInput`
rejection with its error message, or the compiled asset snapshot. -/
inductive WalletResult where
  | invalidInput (error : String)
  | ok (native_balances : List NativeBalance) (tokens : List Token)
      (defi_positions : List DefiPosition)
deriving DecidableEq

/-- Route handler `get_wallet_assets` (src/routes/blockchain.py lines 126-164) with the
network collaborators abstracted as function parameters: validate the
address first (`not address or len(address) != 42 or not
address.startswith('0x')`), and only on success invoke the collaborators
and compile the snapshot, omitting absent chain balances. -/
def get_wallet_assets
    (fetchEth fetchPolygon : String → Option NativeBalance)
    (fetchTokens : String → List Token)
    (fetchDefi : String → List DefiPosition)
    (address : String) : WalletResult :=
  if address == "" || address.length != 42 || !(strStarts address "0x") then
    .invalidInput "Invalid wallet address. Must be 42 characters starting with 0x"
  else
    let eth_balance := fetchEth address
    let polygon_balance := fetchPolygon address
    let tokens := fetchTokens address
    let defi := fetchDefi address
    .ok (eth_balance.toList ++ polygon_balance.toList) tokens defi

/-- The `CREDIBLE_SOURCES['top_tier']` list from src/routes/news.py. -/
def CREDIBLE_SOURCES_top_tier : List String :=
  ["Reuters", "Bloomberg", "Wall Street Journal", "Financial Times",
   "Associated Press", "CNBC"]

/-- The `CREDIBLE_SOURCES['secondary']` list from src/routes/news.py. -/
def CREDIBLE_SOURCES_secondary : List String :=
  ["MarketWatch", "Seeking Alpha", "Yahoo Finance", "Investopedia", "Barrons"]

/-- The `CREDIBLE_SOURCES['crypto']` list from src/routes/news.py. -/
def CREDIBLE_SOURCES_crypto : List String :=
  ["CoinDesk", "The Block", "Decrypt", "Bitcoin Magazine", "Cointelegraph"]

/-- Function `get_source_credibility` (src/routes/news.py lines 37-53): lowercase
the source name, then test the three tiers in order — top tier, secondary,
crypto — returning on the first tier containing a substring match; no
match yields `"unknown"`.  The per-tier `for` loops with early `return`
are each an existential scan (`List.any`). -/
def get_source_credibility (source : String) : String :=
  let source_lower := lowerStr source
  if CREDIBLE_SOURCES_top_tier.any (fun src => strContains source_lower (lowerStr src)) then
    "high"
  else if CREDIBLE_SOURCES_secondary.any (fun src => strContains source_lower (lowerStr src)) then
    "medium"
  else if CREDIBLE_SOURCES_crypto.any (fun src => strContains source_lower (lowerStr src)) then
    "crypto"
  else
    "unknown"

/-! Helper lemmas -/

theorem abs_round1_sub (x : ℚ) : |round1 x - x| ≤ 1/20 := by
  have h := abs_sub_round (x * 10)
  rw [abs_sub_comm] at h
  have hx : round1 x - x = (((round (x * 10) : ℤ) : ℚ) - x * 10) / 10 := by
    unfold round1; ring
  rw [hx, abs_div]
  rw [show |(10 : ℚ)| = 10 by norm_num]
  linarith

theorem abs_round2_sub (x : ℚ) : |round2 x - x| ≤ 1/200 := by
  have h := abs_sub_round (x * 100)
  rw [abs_sub_comm] at h
  have hx : round2 x - x = (((round (x * 100) : ℤ) : ℚ) - x * 100) / 100 := by
    unfold round2; ring
  rw [hx, abs_div]
  rw [show |(100 : ℚ)| = 100 by norm_num]
  linarith

theorem round1_zero : round1 0 = 0 := by
  unfold round1
  norm_num

theorem spendFold_partition (l : List STx) :
    ∀ acc : SpendAcc,
      acc.essential_spent + acc.non_essential_spent = acc.total_spent →
      (l.foldl stepTx acc).essential_spent + (l.foldl stepTx acc).non_essential_spent =
        (l.foldl stepTx acc).total_spent := by
  induction l with
  | nil => intro acc h; exact h
  | cons t rest ih =>
    intro acc h
    apply ih
    by_cases ht : t.is_essential <;> simp [stepTx, ht] <;> linarith

/-! Claim C1 -/

/-- C1: the claim asserts that the portfolio summarization is total, with
the zero-denominator cases yielding a guarded result of 0.  The code is
not guarded: evaluated on a holdings list whose `total_cost` is 0 (one
holding of quantity 0), `get_portfolio` hits the unguarded division
`total_gain / total_cost` and raises (modelled: returns `none`) instead of
producing a defined summary. -/
theorem C1_zero_cost_division_unguarded :
    total_cost [(⟨"ZERO", "Zero Corp", 0, 0, 1, 5, "stock"⟩ : Holding)] = 0 ∧
    get_portfolio [(⟨"ZERO", "Zero Corp", 0, 0, 1, 5, "stock"⟩ : Holding)] = none := by
  constructor
  · decide
  · decide

/-! Claim C4 -/

/-- C4: for every address that is not exactly 42 characters long or does
not begin with `0x`, `get_wallet_assets` returns the `InvalidInput`
rejection — for all possible collaborator functions, i.e. without any
chain-balance, token or DeFi collaborator being consulted. -/
theorem C4_invalid_address_rejected
    (fetchEth fetchPolygon : String → Option NativeBalance)
    (fetchTokens : String → List Token) (fetchDefi : String → List DefiPosition)
    (address : String)
    (h : address.length ≠ 42 ∨ strStarts address "0x" = false) :
    get_wallet_assets fetchEth fetchPolygon fetchTokens fetchDefi address =
      .invalidInput "Invalid wallet address. Must be 42 characters starting with 0x" := by
  have hb : (address == "" || address.length != 42 || !(strStarts address "0x")) = true := by
    rcases h with h | h
    · simp [h]
    · simp [h]
  simp [get_wallet_assets, hb]

/-- Witness for C4 at the spec's concrete scenario `"0x1234"` (length 6). -/
theorem C4_witness :
    ("0x1234".length ≠ 42 ∨ strStarts "0x1234" "0x" = false) ∧
    get_wallet_assets (fun _ => none) (fun _ => none) (fun _ => []) (fun _ => []) "0x1234" =
      .invalidInput "Invalid wallet address. Must be 42 characters starting with 0x" :=
  ⟨Or.inl (by decide),
    C4_invalid_address_rejected (fun _ => none) (fun _ => none) (fun _ => []) (fun _ => [])
      "0x1234" (Or.inl (by decide))⟩

/-! Claim C5 -/

/-- C5: credibility classification tests the three tiers in fixed priority
order and returns on the first match, so any top-tier match yields
`"high"` regardless of other tiers; a secondary match with no top-tier
match yields `"medium"`; a crypto match with no higher match yields
`"crypto"`; no match yields `"unknown"`.  In particular
`"Reuters Crypto Desk"` (both a top-tier and a crypto keyword) classifies
`"high"` and `"CoinDesk Markets"` classifies `"crypto"`. -/
theorem C5_credibility_priority_order :
    (∀ source : String,
      (CREDIBLE_SOURCES_top_tier.any
          (fun src => strContains (lowerStr source) (lowerStr src)) = true →
        get_source_credibility source = "high") ∧
      (CREDIBLE_SOURCES_top_tier.any
          (fun src => strContains (lowerStr source) (lowerStr src)) = false →
        CREDIBLE_SOURCES_secondary.any
          (fun src => strContains (lowerStr source) (lowerStr src)) = true →
        get_source_credibility source = "medium") ∧
      (CREDIBLE_SOURCES_top_tier.any
          (fun src => strContains (lowerStr source) (lowerStr src)) = false →
        CREDIBLE_SOURCES_secondary.any
          (fun src => strContains (lowerStr source) (lowerStr src)) = false →
        CREDIBLE_SOURCES_crypto.any
          (fun src => strContains (lowerStr source) (lowerStr src)) = true →
        get_source_credibility source = "crypto") ∧
      (CREDIBLE_SOURCES_top_tier.any
          (fun src => strContains (lowerStr source) (lowerStr src)) = false →
        CREDIBLE_SOURCES_secondary.any
          (fun src => strContains (lowerStr source) (lowerStr src)) = false →
        CREDIBLE_SOURCES_crypto.any
          (fun src => strContains (lowerStr source) (lowerStr src)) = false →
        get_source_credibility source = "unknown")) ∧
    get_source_credibility "Reuters Crypto Desk" = "high" ∧
    get_source_credibility "CoinDesk Markets" = "crypto" := by
  refine ⟨fun source => ⟨?_, ?_, ?_, ?_⟩, by decide, by decide⟩ <;>
    intros <;> simp [get_source_credibility, *]

/-- Witness for C5: a source containing both a top-tier and a crypto
keyword classifies `"high"`, obtained from the priority clause. -/
theorem C5_witness :
    CREDIBLE_SOURCES_top_tier.any
      (fun src => strContains (lowerStr "Bloomberg Crypto") (lowerStr src)) = true ∧
    get_source_credibility "Bloomberg Crypto" = "high" :=
  ⟨by decide, (C5_credibility_priority_order.1 "Bloomberg Crypto").1 (by decide)⟩

/-! Claim C8 -/

/-- C8: classifying then analyzing the spec's three-transaction scenario
(Whole Foods Market/Groceries/156.32, Netflix/Subscriptions/15.99,
Rent Payment/Housing/1500.00) yields total_spent = 1672.31,
essential_spent = 1656.32, non_essential_spent = 15.99,
essential_percent = 99.0 and non_essential_percent = 1.0 (the rounded
values behind the claim's ≈99.0 / ≈1.0). -/
theorem C8_concrete_spending_scenario :
    (analyze_spending [categorize_stx "Whole Foods Market" "Groceries" (15632/100),
      categorize_stx "Netflix" "Subscriptions" (1599/100),
      categorize_stx "Rent Payment" "Housing" 1500]).total_spent = 167231/100 ∧
    (analyze_spending [categorize_stx "Whole Foods Market" "Groceries" (15632/100),
      categorize_stx "Netflix" "Subscriptions" (1599/100),
      categorize_stx "Rent Payment" "Housing" 1500]).essential_spent = 165632/100 ∧
    (analyze_spending [categorize_stx "Whole Foods Market" "Groceries" (15632/100),
      categorize_stx "Netflix" "Subscriptions" (1599/100),
      categorize_stx "Rent Payment" "Housing" 1500]).non_essential_spent = 1599/100 ∧
    (analyze_spending [categorize_stx "Whole Foods Market" "Groceries" (15632/100),
      categorize_stx "Netflix" "Subscriptions" (1599/100),
      categorize_stx "Rent Payment" "Housing" 1500]).essential_percent = 99 ∧
    (analyze_spending [categorize_stx "Whole Foods Market" "Groceries" (15632/100),
      categorize_stx "Netflix" "Subscriptions" (1599/100),
      categorize_stx "Rent Payment" "Housing" 1500]).non_essential_percent = 1 := by
  refine ⟨?_, ?_, ?_, ?_, ?_⟩ <;> decide

/-! Claim C2 -/

/-- C2: for every non-empty transaction sequence, the reported
essential + non-essential spend equals the reported total spend within
rounding tolerance (each output is rounded to 2 decimals, so the residue
is at most 3/200); when the accumulated total is positive the two reported
percentages (each rounded to 1 decimal) sum to 100 within rounding
tolerance (at most 1/10 off); when the accumulated total is 0 both
percentages are exactly 0. -/
theorem C2_spending_partition_and_percentages (transactions : List STx)
    (hne : transactions ≠ []) :
    |(analyze_spending transactions).essential_spent +
        (analyze_spending transactions).non_essential_spent -
        (analyze_spending transactions).total_spent| ≤ 3/200 ∧
    (0 < (spendFold transactions).total_spent →
      |(analyze_spending transactions).essential_percent +
          (analyze_spending transactions).non_essential_percent - 100| ≤ 1/10) ∧
    ((spendFold transactions).total_spent = 0 →
      (analyze_spending transactions).essential_percent = 0 ∧
      (analyze_spending transactions).non_essential_percent = 0) := by
  have hpart : (spendFold transactions).essential_spent +
      (spendFold transactions).non_essential_spent = (spendFold transactions).total_spent :=
    spendFold_partition transactions ⟨0, 0, 0, []⟩ (by norm_num)
  have hE : (analyze_spending transactions).essential_spent =
      round2 (spendFold transactions).essential_spent := rfl
  have hN : (analyze_spending transactions).non_essential_spent =
      round2 (spendFold transactions).non_essential_spent := rfl
  have hT : (analyze_spending transactions).total_spent =
      round2 (spendFold transactions).total_spent := rfl
  have hEp : (analyze_spending transactions).essential_percent =
      round1 (if 0 < (spendFold transactions).total_spent then
        (spendFold transactions).essential_spent / (spendFold transactions).total_spent * 100
      else 0) := rfl
  have hNp : (analyze_spending transactions).non_essential_percent =
      round1 (if 0 < (spendFold transactions).total_spent then
        (spendFold transactions).non_essential_spent / (spendFold transactions).total_spent * 100
      else 0) := rfl
  refine ⟨?_, ?_, ?_⟩
  · rw [hE, hN, hT]
    have h1 := abs_round2_sub (spendFold transactions).essential_spent
    have h2 := abs_round2_sub (spendFold transactions).non_essential_spent
    have h3 := abs_round2_sub (spendFold transactions).total_spent
    rw [abs_le] at h1 h2 h3 ⊢
    constructor <;> linarith
  · intro hpos
    rw [hEp, hNp, if_pos hpos, if_pos hpos]
    have hTne : (spendFold transactions).total_spent ≠ 0 := ne_of_gt hpos
    have hpq : (spendFold transactions).essential_spent / (spendFold transactions).total_spent * 100 +
        (spendFold transactions).non_essential_spent / (spendFold transactions).total_spent * 100 = 100 := by
      field_simp
      linarith
    have ha := abs_round1_sub
      ((spendFold transactions).essential_spent / (spendFold transactions).total_spent * 100)
    have hb := abs_round1_sub
      ((spendFold transactions).non_essential_spent / (spendFold transactions).total_spent * 100)
    rw [abs_le] at ha hb ⊢
    constructor <;> linarith
  · intro h0
    constructor
    · rw [hEp, if_neg (by rw [h0]; exact lt_irrefl 0)]
      exact round1_zero
    · rw [hNp, if_neg (by rw [h0]; exact lt_irrefl 0)]
      exact round1_zero

/-- Witness for C2 at a concrete one-transaction input with positive
total. -/
theorem C2_witness :
    ([categorize_stx "Rent Payment" "Housing" 1500] ≠ ([] : List STx)) ∧
    0 < (spendFold [categorize_stx "Rent Payment" "Housing" 1500]).total_spent ∧
    |(analyze_spending [categorize_stx "Rent Payment" "Housing" 1500]).essential_percent +
        (analyze_spending [categorize_stx "Rent Payment" "Housing" 1500]).non_essential_percent -
        100| ≤ 1/10 :=
  ⟨by decide, by decide,
    (C2_spending_partition_and_percentages [categorize_stx "Rent Payment" "Housing" 1500]
      (by decide)).2.1 (by decide)⟩

/-! Claim C7 -/

theorem accumBy_sum (b : List (String × ℚ)) (k : String) (a : ℚ) :
    ((accumBy b k a).map Prod.snd).sum = (b.map Prod.snd).sum + a := by
  induction b with
  | nil => simp [accumBy]
  | cons p rest ih =>
    cases hpk : (p.1 == k) <;> simp [accumBy, hpk, ih] <;> ring

theorem foldl_alloc_sum (l : List Holding) :
    ∀ acc : List (String × ℚ),
      ((l.foldl (fun m h => accumBy m h.type h.market_value) acc).map Prod.snd).sum =
        (acc.map Prod.snd).sum + (l.map (fun h => h.market_value)).sum := by
  induction l with
  | nil => intro acc; simp
  | cons h rest ih =>
    intro acc
    simp only [List.foldl_cons, ih, accumBy_sum, List.map_cons, List.sum_cons]
    ring

theorem allocationSums_sum (holdings : List Holding) :
    ((allocationSums holdings).map Prod.snd).sum = total_value holdings := by
  unfold allocationSums total_value
  rw [foldl_alloc_sum]
  simp

theorem sum_map_round1 (l : List ℚ) : |(l.map round1).sum - l.sum| ≤ (l.length : ℚ) / 20 := by
  induction l with
  | nil => simp
  | cons x rest ih =>
    simp only [List.map_cons, List.sum_cons, List.length_cons]
    have hx := abs_round1_sub x
    rw [abs_le] at hx ih ⊢
    push_cast
    constructor <;> linarith

theorem sum_map_scale (b : List (String × ℚ)) (c : ℚ) :
    (b.map (fun q => q.2 * c)).sum = (b.map Prod.snd).sum * c := by
  induction b with
  | nil => simp
  | cons p rest ih => simp [ih]; ring

/-- C7: whenever the portfolio summary is produced and `total_value` is
positive, the per-type allocation percentages (each rounded to 1 decimal)
sum to 100 within rounding tolerance — off by at most 1/20 per allocation
entry. -/
theorem C7_allocation_percentages_sum (holdings : List Holding) (p : PortfolioSummary)
    (htv : 0 < total_value holdings) (hp : get_portfolio holdings = some p) :
    |(p.allocation.map Prod.snd).sum - 100| ≤ (p.allocation.length : ℚ) / 20 := by
  have htvne : total_value holdings ≠ 0 := ne_of_gt htv
  unfold get_portfolio at hp
  dsimp only at hp
  split_ifs at hp with h1 h2
  cases hp
  show |((((allocationSums holdings).map
      (fun q => (q.1, round1 (q.2 / total_value holdings * 100)))).map Prod.snd).sum) - 100| ≤
    ((((allocationSums holdings).map
      (fun q => (q.1, round1 (q.2 / total_value holdings * 100)))).length : ℚ)) / 20
  rw [List.map_map, List.length_map]
  have hmm : ((allocationSums holdings).map
      (Prod.snd ∘ fun q => (q.1, round1 (q.2 / total_value holdings * 100)))) =
      (((allocationSums holdings).map (fun q => q.2 / total_value holdings * 100)).map round1) := by
    rw [List.map_map]
    rfl
  rw [hmm]
  have hf : (fun q : String × ℚ => q.2 / total_value holdings * 100) =
      (fun q : String × ℚ => q.2 * (100 / total_value holdings)) := by
    funext q
    ring
  have hsl : ((allocationSums holdings).map
      (fun q => q.2 / total_value holdings * 100)).sum = 100 := by
    rw [hf, sum_map_scale, allocationSums_sum]
    field_simp
  have hfin := sum_map_round1
    ((allocationSums holdings).map (fun q => q.2 / total_value holdings * 100))
  rw [hsl, List.length_map] at hfin
  exact hfin

/-- Witness for C7 at a concrete one-holding portfolio. -/
theorem C7_witness :
    0 < total_value [(⟨"A", "A", 1, 1, 5, 5, "stock"⟩ : Holding)] ∧
    get_portfolio [(⟨"A", "A", 1, 1, 5, 5, "stock"⟩ : Holding)] =
      some ⟨5, 1, 4, 400, [("stock", 100)]⟩ ∧
    |(((⟨5, 1, 4, 400, [("stock", 100)]⟩ : PortfolioSummary).allocation.map Prod.snd).sum) - 100| ≤
      (((⟨5, 1, 4, 400, [("stock", 100)]⟩ : PortfolioSummary).allocation.length : ℚ)) / 20 :=
  ⟨by decide, by decide,
    C7_allocation_percentages_sum [⟨"A", "A", 1, 1, 5, 5, "stock"⟩]
      ⟨5, 1, 4, 400, [("stock", 100)]⟩ (by decide) (by decide)⟩

/-! Claim C6 -/

theorem tokFold_mem (l : List TransferEvent) :
    ∀ (acc : List Token) (t : Token),
      t ∈ l.foldl tokStep acc ↔
        t ∈ acc ∨ ((∀ u ∈ acc, u.symbol ≠ t.symbol) ∧
          ∃ e, l.find? (fun ev => ev.tokenSymbol == t.symbol) = some e ∧ t = mkToken e) := by
  induction l with
  | nil =>
    intro acc t
    simp
  | cons e rest ih =>
    intro acc t
    rw [List.foldl_cons]
    cases hany : acc.any (fun u => u.symbol == e.tokenSymbol) with
    | true =>
      have hstep : tokStep acc e = acc := by simp [tokStep, hany]
      rw [hstep, ih]
      apply or_congr_right
      have hek : ∃ u ∈ acc, u.symbol = e.tokenSymbol := by simpa using hany
      obtain ⟨u, hu, hue⟩ := hek
      constructor
      · rintro ⟨hacc, e', hfind, ht⟩
        refine ⟨hacc, e', ?_, ht⟩
        rw [List.find?_cons_of_neg]
        · exact hfind
        · simp only [beq_iff_eq]
          intro hh
          exact hacc u hu (by rw [hue, hh])
      · rintro ⟨hacc, e', hfind, ht⟩
        rw [List.find?_cons_of_neg] at hfind
        · exact ⟨hacc, e', hfind, ht⟩
        · simp only [beq_iff_eq]
          intro hh
          exact hacc u hu (by rw [hue, hh])
    | false =>
      have hstep : tokStep acc e = acc ++ [mkToken e] := by simp [tokStep, hany]
      have hnone : ∀ u ∈ acc, u.symbol ≠ e.tokenSymbol := by
        intro u hu
        have h1 := List.any_eq_false.1 hany u hu
        simpa using h1
      rw [hstep, ih]
      constructor
      · rintro (h | ⟨hacc, e', hfind, ht⟩)
        · rcases List.mem_append.1 h with h | h
          · exact Or.inl h
          · have ht : t = mkToken e := by simpa using h
            right
            refine ⟨?_, e, ?_, ht⟩
            · intro u hu
              rw [ht]
              exact fun hh => hnone u hu (by simpa [mkToken] using hh)
            · rw [List.find?_cons_of_pos]
              simp [ht, mkToken]
        · right
          have hne : e.tokenSymbol ≠ t.symbol := by
            have hmk := hacc (mkToken e) (by simp)
            simpa [mkToken] using hmk
          refine ⟨fun u hu => hacc u (List.mem_append_left _ hu), e', ?_, ht⟩
          rw [List.find?_cons_of_neg]
          · exact hfind
          · simpa using hne
      · rintro (h | ⟨hacc, e', hfind, ht⟩)
        · exact Or.inl (List.mem_append_left _ h)
        · by_cases hpe : e.tokenSymbol = t.symbol
          · rw [List.find?_cons_of_pos _ (by simp [hpe])] at hfind
            have hee : e = e' := Option.some.inj hfind
            left
            apply List.mem_append_right
            simp [ht, ← hee]
          · rw [List.find?_cons_of_neg _ (by simpa using hpe)] at hfind
            right
            refine ⟨?_, e', hfind, ht⟩
            intro u hu
            rcases List.mem_append.1 hu with hu | hu
            · exact hacc u hu
            · have hue : u = mkToken e := by simpa using hu
              rw [hue]
              simpa [mkToken] using hpe

theorem tokFold_symbols_nodup (l : List TransferEvent) :
    ∀ acc : List Token, (acc.map Token.symbol).Nodup →
      ((l.foldl tokStep acc).map Token.symbol).Nodup := by
  induction l with
  | nil => intro acc h; exact h
  | cons e rest ih =>
    intro acc h
    rw [List.foldl_cons]
    cases hany : acc.any (fun u => u.symbol == e.tokenSymbol) with
    | true =>
      rw [show tokStep acc e = acc from by simp [tokStep, hany]]
      exact ih acc h
    | false =>
      rw [show tokStep acc e = acc ++ [mkToken e] from by simp [tokStep, hany]]
      apply ih
      rw [List.map_append, List.nodup_append]
      refine ⟨h, by simp, ?_⟩
      intro s hs hmem
      have hse : s = e.tokenSymbol := by simpa [mkToken] using hmem
      obtain ⟨u, hu, rfl⟩ := List.mem_map.1 hs
      have h1 := List.any_eq_false.1 hany u hu
      simp only [beq_iff_eq] at h1
      exact h1 hse

theorem tokFold_symbols_mem (l : List TransferEvent) :
    ∀ (acc : List Token) (s : String),
      s ∈ (l.foldl tokStep acc).map Token.symbol ↔
        s ∈ acc.map Token.symbol ∨ s ∈ l.map TransferEvent.tokenSymbol := by
  induction l with
  | nil => intro acc s; simp
  | cons e rest ih =>
    intro acc s
    rw [List.foldl_cons]
    cases hany : acc.any (fun u => u.symbol == e.tokenSymbol) with
    | true =>
      rw [show tokStep acc e = acc from by simp [tokStep, hany], ih]
      simp only [List.map_cons, List.mem_cons]
      constructor
      · rintro (h | h)
        · exact Or.inl h
        · exact Or.inr (Or.inr h)
      · rintro (h | h | h)
        · exact Or.inl h
        · obtain ⟨u, hu, hue⟩ : ∃ u ∈ acc, u.symbol = e.tokenSymbol := by simpa using hany
          exact Or.inl (List.mem_map.2 ⟨u, hu, by rw [hue, h]⟩)
        · exact Or.inr h
    | false =>
      rw [show tokStep acc e = acc ++ [mkToken e] from by simp [tokStep, hany], ih]
      simp only [List.map_append, List.mem_append, List.map_cons, List.mem_cons,
        List.map_nil, List.mem_singleton, mkToken]
      tauto

/-- C6: token compilation scans only the first 50 transfer events; the
compiled tokens have pairwise-distinct symbols; a symbol appears among the
compiled tokens exactly when it occurs among the scanned events; and every
compiled token is exactly the token built from the first-scanned event
bearing its symbol (`find?` returns the earliest match), so name, contract
and decimals come from that first-scanned event. -/
theorem C6_token_dedup_first_wins (events : List TransferEvent) :
    get_eth_tokens events = get_eth_tokens (events.take 50) ∧
    ((get_eth_tokens events).map Token.symbol).Nodup ∧
    (∀ s : String, s ∈ (get_eth_tokens events).map Token.symbol ↔
      s ∈ (events.take 50).map TransferEvent.tokenSymbol) ∧
    (∀ t : Token, t ∈ get_eth_tokens events ↔
      ∃ e, (events.take 50).find? (fun ev => ev.tokenSymbol == t.symbol) = some e ∧
        t = mkToken e) := by
  refine ⟨?_, ?_, ?_, ?_⟩
  · unfold get_eth_tokens
    rw [List.take_take]
    norm_num
  · exact tokFold_symbols_nodup (events.take 50) [] (by simp)
  · intro s
    have h := tokFold_symbols_mem (events.take 50) [] s
    simpa using h
  · intro t
    have h := tokFold_mem (events.take 50) [] t
    simpa using h

/-- Witness for C6: in a two-event history with a repeated symbol, the
compiled token is the one built from the first-scanned event. -/
theorem C6_witness :
    mkToken ⟨"USDC", "USD Coin", "0xa", 6⟩ ∈
      get_eth_tokens [⟨"USDC", "USD Coin", "0xa", 6⟩, ⟨"USDC", "Other", "0xb", 6⟩] :=
  ((C6_token_dedup_first_wins [⟨"USDC", "USD Coin", "0xa", 6⟩, ⟨"USDC", "Other", "0xb", 6⟩]).2.2.2
    (mkToken ⟨"USDC", "USD Coin", "0xa", 6⟩)).mpr
    ⟨⟨"USDC", "USD Coin", "0xa", 6⟩, by decide, rfl⟩

/-! Claims C9 and C10 -/

theorem txLookup_setKey_self (t : TxRecord) (k : String) (v : Value) :
    txLookup (setKey t k v) k = some v := by
  induction t with
  | nil => simp [setKey, txLookup]
  | cons p rest ih =>
    cases hpk : (p.1 == k) with
    | true => simp [setKey, hpk, txLookup]
    | false => simp [setKey, hpk, txLookup, ih]

theorem txLookup_setKey_ne (t : TxRecord) (k : String) (v : Value) (k' : String)
    (h : k' ≠ k) :
    txLookup (setKey t k v) k' = txLookup t k' := by
  induction t with
  | nil =>
    have hkk : (k == k') = false := by
      simp only [beq_eq_false_iff_ne]
      exact fun hh => h hh.symm
    simp [setKey, txLookup, hkk]
  | cons p rest ih =>
    cases hpk : (p.1 == k) with
    | true =>
      have hp1 : p.1 = k := by simpa using hpk
      have hkk : (k == k') = false := by
        simp only [beq_eq_false_iff_ne]
        exact fun hh => h hh.symm
      have hpk' : (p.1 == k') = false := by rw [hp1]; exact hkk
      simp [setKey, hpk, txLookup, hkk, hpk']
    | false =>
      cases hpk' : (p.1 == k') with
      | true => simp [setKey, hpk, txLookup, hpk']
      | false => simp [setKey, hpk, txLookup, hpk', ih]

theorem getStr_setKey_ne (t : TxRecord) (k : String) (v : Value) (k' : String)
    (h : k' ≠ k) :
    getStr (setKey t k v) k' = getStr t k' := by
  unfold getStr
  rw [txLookup_setKey_ne t k v k' h]

/-- C10: the classifier returns the input record with every other key
bound exactly as before — the only keys it adds or overwrites are
`is_essential` and `category_type`, which it sets to the computed flag and
the string derived from it. -/
theorem C10_classifier_preserves_fields (t u : TxRecord)
    (h : categorize_transaction t = some u) :
    (∀ k : String, k ≠ "is_essential" → k ≠ "category_type" →
      txLookup u k = txLookup t k) ∧
    (∃ b : Bool, txLookup u "is_essential" = some (.b b) ∧
      txLookup u "category_type" = some (.s (if b then "essential" else "non-essential"))) := by
  unfold categorize_transaction at h
  cases hn : getStr t "name" with
  | none =>
    rw [hn] at h
    cases hc : getStr t "category" with
    | none => rw [hc] at h; exact Option.noConfusion h
    | some cat => rw [hc] at h; exact Option.noConfusion h
  | some nm =>
    rw [hn] at h
    cases hc : getStr t "category" with
    | none => rw [hc] at h; exact Option.noConfusion h
    | some cat =>
      rw [hc] at h
      have h' : setKey (setKey t "is_essential" (.b (isEssentialTx nm cat))) "category_type"
          (.s (if isEssentialTx nm cat then "essential" else "non-essential")) = u :=
        Option.some.inj h
      subst h'
      constructor
      · intro k h1 h2
        rw [txLookup_setKey_ne _ _ _ _ h2, txLookup_setKey_ne _ _ _ _ h1]
      · refine ⟨isEssentialTx nm cat, ?_, ?_⟩
        · rw [txLookup_setKey_ne _ _ _ _ (by decide : ("is_essential" : String) ≠ "category_type")]
          exact txLookup_setKey_self _ _ _
        · exact txLookup_setKey_self _ _ _

/-- Witness for C10 at a concrete record: the `amount` binding survives
classification unchanged. -/
theorem C10_witness :
    txLookup [("name", Value.s "Netflix"), ("category", Value.s "Subscriptions"),
        ("amount", Value.n (1599/100)), ("is_essential", Value.b false),
        ("category_type", Value.s "non-essential")] "amount" =
      txLookup [("name", Value.s "Netflix"), ("category", Value.s "Subscriptions"),
        ("amount", Value.n (1599/100))] "amount" :=
  (C10_classifier_preserves_fields
      [("name", Value.s "Netflix"), ("category", Value.s "Subscriptions"),
        ("amount", Value.n (1599/100))]
      [("name", Value.s "Netflix"), ("category", Value.s "Subscriptions"),
        ("amount", Value.n (1599/100)), ("is_essential", Value.b false),
        ("category_type", Value.s "non-essential")]
      (by decide)).1 "amount" (by decide) (by decide)

/-- C9: classification is idempotent — classifying an already-classified
record succeeds and leaves the `is_essential` binding unchanged. -/
theorem C9_classifier_idempotent (t u : TxRecord)
    (h : categorize_transaction t = some u) :
    ∃ v : TxRecord, categorize_transaction u = some v ∧
      txLookup v "is_essential" = txLookup u "is_essential" := by
  unfold categorize_transaction at h
  cases hn : getStr t "name" with
  | none =>
    rw [hn] at h
    cases hc : getStr t "category" with
    | none => rw [hc] at h; exact Option.noConfusion h
    | some cat => rw [hc] at h; exact Option.noConfusion h
  | some nm =>
    rw [hn] at h
    cases hc : getStr t "category" with
    | none => rw [hc] at h; exact Option.noConfusion h
    | some cat =>
      rw [hc] at h
      have h' : setKey (setKey t "is_essential" (.b (isEssentialTx nm cat))) "category_type"
          (.s (if isEssentialTx nm cat then "essential" else "non-essential")) = u :=
        Option.some.inj h
      subst h'
      have hgn : getStr (setKey (setKey t "is_essential" (.b (isEssentialTx nm cat)))
          "category_type" (.s (if isEssentialTx nm cat then "essential" else "non-essential")))
          "name" = some nm := by
        rw [getStr_setKey_ne _ _ _ _ (by decide : ("name" : String) ≠ "category_type"),
          getStr_setKey_ne _ _ _ _ (by decide : ("name" : String) ≠ "is_essential")]
        exact hn
      have hgc : getStr (setKey (setKey t "is_essential" (.b (isEssentialTx nm cat)))
          "category_type" (.s (if isEssentialTx nm cat then "essential" else "non-essential")))
          "category" = some cat := by
        rw [getStr_setKey_ne _ _ _ _ (by decide : ("category" : String) ≠ "category_type"),
          getStr_setKey_ne _ _ _ _ (by decide : ("category" : String) ≠ "is_essential")]
        exact hc
      have hcat2 : categorize_transaction
          (setKey (setKey t "is_essential" (Value.b (isEssentialTx nm cat))) "category_type"
            (Value.s (if isEssentialTx nm cat then "essential" else "non-essential"))) =
          some (setKey (setKey
            (setKey (setKey t "is_essential" (Value.b (isEssentialTx nm cat))) "category_type"
              (Value.s (if isEssentialTx nm cat then "essential" else "non-essential")))
            "is_essential" (Value.b (isEssentialTx nm cat))) "category_type"
            (Value.s (if isEssentialTx nm cat then "essential" else "non-essential"))) := by
        unfold categorize_transaction
        rw [hgn, hgc]
      refine ⟨_, hcat2, ?_⟩
      rw [txLookup_setKey_ne _ _ _ _ (by decide : ("is_essential" : String) ≠ "category_type"),
        txLookup_setKey_self,
        txLookup_setKey_ne _ _ _ _ (by decide : ("is_essential" : String) ≠ "category_type"),
        txLookup_setKey_self]

/-- Witness for C9 at a concrete already-classified record. -/
theorem C9_witness :
    ∃ v : TxRecord,
      categorize_transaction [("name", Value.s "Netflix"),
        ("category", Value.s "Subscriptions"), ("is_essential", Value.b false),
        ("category_type", Value.s "non-essential")] = some v ∧
      txLookup v "is_essential" =
        txLookup [("name", Value.s "Netflix"), ("category", Value.s "Subscriptions"),
          ("is_essential", Value.b false), ("category_type", Value.s "non-essential")]
          "is_essential" :=
  C9_classifier_idempotent
    [("name", Value.s "Netflix"), ("category", Value.s "Subscriptions")]
    [("name", Value.s "Netflix"), ("category", Value.s "Subscriptions"),
      ("is_essential", Value.b false), ("category_type", Value.s "non-essential")]
    (by decide)

/-! Claim C3 -/

theorem firstKeys_foldl_mem (cats : List String) :
    ∀ (acc : List String) (c : String),
      c ∈ cats.foldl (fun ks x => if x ∈ ks then ks else ks ++ [x]) acc ↔
        c ∈ acc ∨ c ∈ cats := by
  induction cats with
  | nil => intro acc c; simp
  | cons c0 rest ih =>
    intro acc c
    rw [List.foldl_cons, ih]
    by_cases h0 : c0 ∈ acc
    · simp only [if_pos h0, List.mem_cons]
      constructor
      · rintro (h | h)
        · exact Or.inl h
        · exact Or.inr (Or.inr h)
      · rintro (h | h | h)
        · exact Or.inl h
        · exact Or.inl (h ▸ h0)
        · exact Or.inr h
    · simp only [if_neg h0, List.mem_append, List.mem_singleton, List.mem_cons]
      tauto

theorem firstKeys_mem (cats : List String) (c : String) :
    c ∈ firstKeys cats ↔ c ∈ cats := by
  unfold firstKeys
  rw [firstKeys_foldl_mem]
  simp

theorem firstKeys_foldl_nodup (cats : List String) :
    ∀ acc : List String, acc.Nodup →
      (cats.foldl (fun ks x => if x ∈ ks then ks else ks ++ [x]) acc).Nodup := by
  induction cats with
  | nil => intro acc h; exact h
  | cons c0 rest ih =>
    intro acc h
    rw [List.foldl_cons]
    by_cases h0 : c0 ∈ acc
    · rw [if_pos h0]
      exact ih acc h
    · rw [if_neg h0]
      apply ih
      rw [List.nodup_append]
      exact ⟨h, List.nodup_singleton _, fun a ha hb => h0 (List.mem_singleton.1 hb ▸ ha)⟩

theorem firstKeys_nodup (cats : List String) : (firstKeys cats).Nodup :=
  firstKeys_foldl_nodup cats [] (by simp)

theorem accumBy_map_of_mem (f : String → ℚ) (a : ℚ) (k : String) :
    ∀ ks : List String, k ∈ ks → ks.Nodup →
      accumBy (ks.map fun c => (c, f c)) k a =
        ks.map fun c => (c, if c = k then f c + a else f c) := by
  intro ks
  induction ks with
  | nil => intro h _; exact absurd h (by simp)
  | cons c0 rest ih =>
    intro hk hnd
    by_cases h0 : c0 = k
    · subst h0
      have hc0 : c0 ∉ rest := (List.nodup_cons.1 hnd).1
      have htail : (rest.map fun c => (c, if c = c0 then f c + a else f c)) =
          rest.map fun c => (c, f c) := by
        apply List.map_congr_left
        intro c hc
        have hcc : c ≠ c0 := fun hh => hc0 (hh ▸ hc)
        simp [hcc]
      simp [accumBy, htail]
    · have hk' : k ∈ rest := by
        rcases List.mem_cons.1 hk with h | h
        · exact absurd h.symm h0
        · exact h
      have hnd' := (List.nodup_cons.1 hnd).2
      have hbeq : ((c0, f c0).1 == k) = false := by
        simp only [beq_eq_false_iff_ne]
        exact h0
      simp only [List.map_cons]
      rw [show accumBy ((c0, f c0) :: rest.map fun c => (c, f c)) k a =
          (c0, f c0) :: accumBy (rest.map fun c => (c, f c)) k a from by
        simp [accumBy, hbeq]]
      rw [ih hk' hnd']
      simp [h0]

theorem accumBy_map_of_not_mem (f : String → ℚ) (a : ℚ) (k : String) :
    ∀ ks : List String, k ∉ ks →
      accumBy (ks.map fun c => (c, f c)) k a = (ks.map fun c => (c, f c)) ++ [(k, a)] := by
  intro ks
  induction ks with
  | nil => intro _; simp [accumBy]
  | cons c0 rest ih =>
    intro hk
    have h1 : k ≠ c0 := fun h => hk (h ▸ List.mem_cons_self c0 rest)
    have h2 : k ∉ rest := fun h => hk (List.mem_cons_of_mem _ h)
    have hbeq : ((c0, f c0).1 == k) = false := by
      simp only [beq_eq_false_iff_ne]
      exact fun h => h1 h.symm
    simp [accumBy, hbeq, ih h2]

theorem round_rat_mono {x y : ℚ} (h : x ≤ y) : round x ≤ round y := by
  rw [round_eq, round_eq]
  exact Int.floor_mono (by linarith)

theorem round2_mono {x y : ℚ} (h : x ≤ y) : round2 x ≤ round2 y := by
  unfold round2
  have hr := round_rat_mono (by linarith : x * 100 ≤ y * 100)
  have hr' : ((round (x * 100) : ℤ) : ℚ) ≤ ((round (y * 100) : ℤ) : ℚ) := by exact_mod_cast hr
  linarith

theorem spendFold_breakdown (l : List STx) :
    ∀ acc : SpendAcc,
      (l.foldl stepTx acc).category_breakdown =
        l.foldl (fun b tx => accumBy b tx.category |tx.amount|) acc.category_breakdown := by
  induction l with
  | nil => intro acc; rfl
  | cons t rest ih =>
    intro acc
    rw [List.foldl_cons, List.foldl_cons, ih]
    rfl

theorem catSum_append_singleton (l : List STx) (t : STx) (c : String) :
    (((l ++ [t]).filter fun tx => tx.category == c).map fun tx => |tx.amount|).sum =
      ((l.filter fun tx => tx.category == c).map fun tx => |tx.amount|).sum +
        (if t.category = c then |t.amount| else 0) := by
  rw [List.filter_append, List.map_append, List.sum_append]
  by_cases ht : t.category = c
  · simp [List.filter_cons, ht]
  · simp [List.filter_cons, ht]

theorem catSum_of_not_mem (l : List STx) (c : String)
    (h : c ∉ l.map STx.category) :
    (((l.filter fun tx => tx.category == c).map fun tx => |tx.amount|).sum) = 0 := by
  have hnil : (l.filter fun tx => tx.category == c) = [] := by
    rw [List.filter_eq_nil_iff]
    intro tx htx
    simp only [beq_iff_eq]
    exact fun hh => h (List.mem_map.2 ⟨tx, htx, hh⟩)
  rw [hnil]
  simp

theorem bFold_eq_specCatSums (transactions : List STx) :
    transactions.foldl (fun b tx => accumBy b tx.category |tx.amount|) [] =
      specCatSums transactions := by
  induction transactions using List.reverseRecOn with
  | nil => simp [specCatSums, firstKeys]
  | append_singleton l t ih =>
    rw [List.foldl_append, List.foldl_cons, List.foldl_nil, ih]
    unfold specCatSums
    have hfk : firstKeys ((l ++ [t]).map STx.category) =
        if t.category ∈ firstKeys (l.map STx.category) then firstKeys (l.map STx.category)
        else firstKeys (l.map STx.category) ++ [t.category] := by
      unfold firstKeys
      rw [List.map_append, List.foldl_append]
      simp
    by_cases hmem : t.category ∈ firstKeys (l.map STx.category)
    · rw [hfk, if_pos hmem]
      rw [accumBy_map_of_mem _ _ _ _ hmem (firstKeys_nodup _)]
      apply List.map_congr_left
      intro c hc
      rw [catSum_append_singleton]
      by_cases hct : c = t.category
      · rw [if_pos hct, if_pos hct.symm]
      · rw [if_neg hct, if_neg (fun hh => hct hh.symm)]
        simp
    · rw [hfk, if_neg hmem]
      rw [accumBy_map_of_not_mem _ _ _ _ hmem]
      rw [List.map_append]
      congr 1
      · apply List.map_congr_left
        intro c hc
        have hct : c ≠ t.category := fun h => hmem (h ▸ hc)
        rw [catSum_append_singleton, if_neg (fun hh => hct hh.symm)]
        simp
      · have h0 : (((l.filter fun tx => tx.category == t.category).map
            fun tx => |tx.amount|).sum) = 0 :=
          catSum_of_not_mem l t.category fun hh => hmem ((firstKeys_mem _ _).2 hh)
        rw [List.map_cons, List.map_nil, catSum_append_singleton, h0, if_pos rfl]
        simp

theorem breakdown_eq (transactions : List STx) :
    (spendFold transactions).category_breakdown = specCatSums transactions := by
  unfold spendFold
  rw [spendFold_breakdown]
  exact bFold_eq_specCatSums transactions

theorem specCatSums_keys (transactions : List STx) :
    (specCatSums transactions).map Prod.fst = firstKeys (transactions.map STx.category) := by
  unfold specCatSums
  rw [List.map_map]
  have hid : (Prod.fst ∘ fun c : String =>
      (c, ((transactions.filter fun t => t.category == c).map fun t => |t.amount|).sum)) =
      id := funext fun c => rfl
  rw [hid, List.map_id]

/-- C3: the category breakdown is exactly the stable descending sort (by
summed value; Lean's `mergeSort` is stable, so ties keep encounter order)
of the per-category absolute-amount sums taken in first-encounter order,
with values rounded at the boundary; consequently its keys are exactly the
distinct raw categories of the input, without duplicates, its entries are
ordered by non-increasing value, and each key maps to the rounded sum of
absolute amounts of that category's transactions. -/
theorem C3_category_breakdown (transactions : List STx) :
    (analyze_spending transactions).category_breakdown =
      ((specCatSums transactions).mergeSort (fun x y => decide (y.2 ≤ x.2))).map
        (fun p => (p.1, round2 p.2)) ∧
    (∀ c : String,
      c ∈ (analyze_spending transactions).category_breakdown.map Prod.fst ↔
        c ∈ transactions.map STx.category) ∧
    ((analyze_spending transactions).category_breakdown.map Prod.fst).Nodup ∧
    (analyze_spending transactions).category_breakdown.Pairwise (fun p q => q.2 ≤ p.2) ∧
    (∀ p ∈ (analyze_spending transactions).category_breakdown,
      p.2 = round2 (((transactions.filter fun t => t.category == p.1).map
        fun t => |t.amount|).sum)) := by
  have hbd : (analyze_spending transactions).category_breakdown =
      ((specCatSums transactions).mergeSort (fun x y => decide (y.2 ≤ x.2))).map
        (fun p => (p.1, round2 p.2)) := by
    have h0 : (analyze_spending transactions).category_breakdown =
        (((spendFold transactions).category_breakdown).mergeSort
          (fun x y => decide (y.2 ≤ x.2))).map (fun p => (p.1, round2 p.2)) := rfl
    rw [h0, breakdown_eq]
  have hcomp : (Prod.fst ∘ fun p : String × ℚ => (p.1, round2 p.2)) = Prod.fst :=
    funext fun p => rfl
  have hperm : List.Perm
      (((specCatSums transactions).mergeSort (fun x y => decide (y.2 ≤ x.2))).map Prod.fst)
      ((specCatSums transactions).map Prod.fst) :=
    (List.mergeSort_perm _ _).map _
  refine ⟨hbd, ?_, ?_, ?_, ?_⟩
  · intro c
    rw [hbd, List.map_map, hcomp, hperm.mem_iff, specCatSums_keys, firstKeys_mem]
  · rw [hbd, List.map_map, hcomp]
    rw [hperm.nodup_iff]
    rw [specCatSums_keys]
    exact firstKeys_nodup _
  · rw [hbd]
    have htrans : ∀ a b c : String × ℚ,
        (fun x y : String × ℚ => decide (y.2 ≤ x.2)) a b →
        (fun x y : String × ℚ => decide (y.2 ≤ x.2)) b c →
        (fun x y : String × ℚ => decide (y.2 ≤ x.2)) a c := by
      intro a b c hab hbc
      simp only [decide_eq_true_eq] at hab hbc ⊢
      exact le_trans hbc hab
    have htotal : ∀ a b : String × ℚ,
        ((fun x y : String × ℚ => decide (y.2 ≤ x.2)) a b ||
          (fun x y : String × ℚ => decide (y.2 ≤ x.2)) b a) := by
      intro a b
      simp only [Bool.or_eq_true, decide_eq_true_eq]
      exact le_total b.2 a.2
    apply List.Pairwise.map
    · intro a b hab
      have hba : b.2 ≤ a.2 := by simpa using hab
      exact round2_mono hba
    · exact List.Pairwise.imp (fun hab => by simpa using hab)
        (List.sorted_mergeSort htrans htotal (specCatSums transactions))
  · rw [hbd]
    intro p hp
    obtain ⟨q, hq, rfl⟩ := List.mem_map.1 hp
    rw [List.mem_mergeSort] at hq
    unfold specCatSums at hq
    obtain ⟨c, _, rfl⟩ := List.mem_map.1 hq
    rfl

/-- Witness for C3: at a concrete input, the raw category appears among
the breakdown keys, obtained from the keys clause. -/
theorem C3_witness :
    "Housing" ∈ List.map Prod.fst
      (analyze_spending [categorize_stx "Rent Payment" "Housing" 1500]).category_breakdown :=
  ((C3_category_breakdown [categorize_stx "Rent Payment" "Housing" 1500]).2.1 "Housing").mpr
    (by decide)
